import Mathlib

/-!
Shallow embedding of the todo-list store (src/todoManager.js, final variant)
and the due-date urgency classifier (src/todoUI.js).

Modelling conventions:
- The persisted collection in localStorage is modelled as a `List Todo`;
  `getTodos`/`saveTodos` (JSON round trip through a single storage key) are
  modelled as the identity, so every operation becomes a pure state
  transformer `List Todo → result × List Todo`.
- JS numbers holding ids and millisecond timestamps are modelled as `Int`.
- `createdAt` is stored as an ISO string in the code; here it is a sum:
  `missing` (field absent or empty, which the comparator coerces to the
  epoch via the `a.createdAt || 0` fallback), `invalid` (a non-empty string
  that does not parse, whose `Date` value is NaN), or `parsed t` (a string
  parsing to `t` milliseconds since the epoch).
- `status` is stored verbatim as a string, as in the code; the priority
  table `statusPriority` yields `none` (JS `undefined`) for unknown keys.
- The sort comparator can return NaN (modelled as `none`); per the
  ECMAScript SortCompare step, a NaN comparator result is treated as `+0`.
  `Array.prototype.sort` is stable (ES2019), and for a consistent
  comparator the stable sorted order is uniquely determined, so it is
  modelled by a stable insertion sort `sortJS`.
- In the code, mutating operations obtain a reference via `Array.find` and
  assign to one field, then save the whole array; here this is a functional
  update `updateFirst` of the first matching element.
-/

/-- Possible states of the `createdAt` field as seen by the sort
comparator in `getSortedTodos`. -/
inductive CreatedAt where
  | missing
  | invalid
  | parsed (t : Int)
deriving DecidableEq, Repr

/-- A task record, as produced by `addTodo` and stored in localStorage. -/
structure Todo where
  id : Int
  text : String
  status : String
  createdAt : CreatedAt
  archived : Bool
  dueDate : Option String
deriving DecidableEq, Repr

/-- Leading whitespace characters removed from a character list. -/
def trimLeadingChars : List Char → List Char
  | [] => []
  | c :: cs => if c.isWhitespace then trimLeadingChars cs else c :: cs

/-- Model of JS `String.prototype.trim` used by `addTodo` and
`updateTodoText`: drops leading and trailing whitespace. -/
def jsTrim (s : String) : String :=
  String.mk ((trimLeadingChars (trimLeadingChars s.data).reverse).reverse)

/-- Model of `getTodos`: reads and parses the stored collection. Storage
read/parse failures degrade to the empty list in the code; on the abstract
storage state it is the identity. -/
def getTodos (store : List Todo) : List Todo := store

/-- The `statusPriority` object lookup in `getSortedTodos`:
`{'todo': 0, 'doing': 1, 'done': 2}`, `undefined` for any other key. -/
def statusPriority (s : String) : Option Int :=
  if s = "todo" then some 0
  else if s = "doing" then some 1
  else if s = "done" then some 2
  else none

/-- Numeric value of `new Date(x.createdAt || 0)` in the comparator:
a missing/empty field falls back to `0` (the epoch), an unparseable string
gives an invalid date (NaN, modelled as `none`). -/
def effTime : CreatedAt → Option Int
  | CreatedAt.missing => some 0
  | CreatedAt.invalid => none
  | CreatedAt.parsed t => some t

/-- The comparator passed to `activeTodos.sort` in `getSortedTodos`:
status-priority difference first, then the `createdAt` difference.
`none` models a NaN result (unknown status or invalid date). -/
def cmpTodos (a b : Todo) : Option Int :=
  match statusPriority a.status, statusPriority b.status with
  | some pa, some pb =>
      if pa - pb ≠ 0 then some (pa - pb)
      else
        match effTime a.createdAt, effTime b.createdAt with
        | some x, some y => some (x - y)
        | _, _ => none
  | _, _ => none

/-- Comparator value as consumed by the sort: per ECMAScript SortCompare,
a NaN comparator result is replaced by `+0`. -/
def cmpNum (a b : Todo) : Int := (cmpTodos a b).getD 0

/-- Stable insertion of `x` into `l`: `x` is placed before the first
element `y` with `lt x y`, after every element it does not strictly
precede. -/
def insertJS (lt : Todo → Todo → Bool) (x : Todo) : List Todo → List Todo
  | [] => [x]
  | y :: ys => if lt x y then x :: y :: ys else y :: insertJS lt x ys

/-- Stable sort: elements are inserted left to right, each after the
elements already placed that it does not strictly precede. For a
consistent comparator this is the unique stable order that
`Array.prototype.sort` (stable since ES2019) must produce. -/
def sortJS (lt : Todo → Todo → Bool) (l : List Todo) : List Todo :=
  l.foldl (fun acc x => insertJS lt x acc) []

/-- The strict precedence used by the model of the sort: `a` strictly
precedes `b` when the comparator is negative. -/
def ltTodo (a b : Todo) : Bool := cmpNum a b < 0

/-- Model of `getSortedTodos`: filter out archived tasks, then sort by
status priority with ties broken by `createdAt`. -/
def getSortedTodos (store : List Todo) : List Todo :=
  sortJS ltTodo ((getTodos store).filter (fun t => !t.archived))

/-- Model of `getArchivedTodos`: the archived tasks in storage order. -/
def getArchivedTodos (store : List Todo) : List Todo :=
  (getTodos store).filter (fun t => t.archived)

/-- Result shape of `getStatusSummary`. -/
structure Summary where
  todo : Nat
  doing : Nat
  done : Nat
  total : Nat
deriving DecidableEq, Repr

/-- Model of `getStatusSummary`: counts over `getSortedTodos`, the
non-archived set. -/
def getStatusSummary (store : List Todo) : Summary :=
  let ts := getSortedTodos store
  { todo := (ts.filter (fun t => t.status = "todo")).length
    doing := (ts.filter (fun t => t.status = "doing")).length
    done := (ts.filter (fun t => t.status = "done")).length
    total := ts.length }

/-- Value of `Math.max(...todos.map(todo => todo.id))` on a non-empty
collection (the empty case is guarded by `todos.length > 0` in the code). -/
def maxIds (todos : List Todo) : Int :=
  match todos.map (fun t => t.id) with
  | [] => 0
  | x :: xs => xs.foldl max x

/-- Model of `addTodo(text, status = 'todo', dueDate = null)`.
`now` is the millisecond value of `new Date()` whose ISO string is
stamped into `createdAt`. Returns the new task and the saved collection. -/
def addTodo (text : String) (status : String := "todo")
    (dueDate : Option String := none) (now : Int := 0)
    (store : List Todo := []) : Todo × List Todo :=
  let todos := getTodos store
  let newId : Int := if todos.length > 0 then maxIds todos + 1 else 1
  let newTodo : Todo :=
    { id := newId
      text := jsTrim text
      status := status
      createdAt := CreatedAt.parsed now
      archived := false
      dueDate := dueDate }
  (newTodo, todos ++ [newTodo])

/-- Model of `deleteTodo(id)`: filter out every task with the id; if
nothing was removed, return `false` and do not save. -/
def deleteTodo (id : Int) (store : List Todo) : Bool × List Todo :=
  let todos := getTodos store
  let filteredTodos := todos.filter (fun t => t.id ≠ id)
  if filteredTodos.length = todos.length then
    (false, todos)
  else
    (true, filteredTodos)

/-- Functional counterpart of mutating, through the reference returned by
`Array.find`, one field of the first element satisfying `p` and saving
the whole array. -/
def updateFirst (p : Todo → Bool) (f : Todo → Todo) : List Todo → List Todo
  | [] => []
  | x :: xs => if p x then f x :: xs else x :: updateFirst p f xs

/-- Model of `updateTodoStatus(id, newStatus)`. -/
def updateTodoStatus (id : Int) (newStatus : String) (store : List Todo) :
    Option Todo × List Todo :=
  let todos := getTodos store
  match todos.find? (fun t => t.id = id) with
  | none => (none, todos)
  | some todo =>
      let f := fun (t : Todo) => { t with status := newStatus }
      (some (f todo), updateFirst (fun t => t.id = id) f todos)

/-- Model of `updateTodoDueDate(id, dueDate)`: sets the due date verbatim,
`none` clears it. -/
def updateTodoDueDate (id : Int) (dueDate : Option String)
    (store : List Todo) : Option Todo × List Todo :=
  let todos := getTodos store
  match todos.find? (fun t => t.id = id) with
  | none => (none, todos)
  | some todo =>
      let f := fun (t : Todo) => { t with dueDate := dueDate }
      (some (f todo), updateFirst (fun t => t.id = id) f todos)

/-- Model of `updateTodoText(id, newText)`: after the id lookup, a text
that trims to the empty string is rejected with `null` and no save. -/
def updateTodoText (id : Int) (newText : String) (store : List Todo) :
    Option Todo × List Todo :=
  let todos := getTodos store
  match todos.find? (fun t => t.id = id) with
  | none => (none, todos)
  | some todo =>
      let trimmedText := jsTrim newText
      if trimmedText = "" then
        (none, todos)
      else
        let f := fun (t : Todo) => { t with text := trimmedText }
        (some (f todo), updateFirst (fun t => t.id = id) f todos)

/-- Model of `archiveTodo(id)`. -/
def archiveTodo (id : Int) (store : List Todo) : Option Todo × List Todo :=
  let todos := getTodos store
  match todos.find? (fun t => t.id = id) with
  | none => (none, todos)
  | some todo =>
      let f := fun (t : Todo) => { t with archived := true }
      (some (f todo), updateFirst (fun t => t.id = id) f todos)

/-- Model of `unarchiveTodo(id)`. -/
def unarchiveTodo (id : Int) (store : List Todo) : Option Todo × List Todo :=
  let todos := getTodos store
  match todos.find? (fun t => t.id = id) with
  | none => (none, todos)
  | some todo =>
      let f := fun (t : Todo) => { t with archived := false }
      (some (f todo), updateFirst (fun t => t.id = id) f todos)

/-- Model of `getDueDateUrgency` (src/todoUI.js). Both dates are truncated
to local midnight by `setHours(0,0,0,0)`, so the millisecond difference is
an exact whole number of days and `Math.ceil(diffTime / 86400000)` is the
day difference itself; the embedding therefore works directly on calendar
day numbers. A falsy due date returns `null`. -/
def getDueDateUrgency (todayDay : Int) (dueDate : Option Int) :
    Option String :=
  match dueDate with
  | none => none
  | some dueDay =>
      let diffDays := dueDay - todayDay
      if diffDays < 0 then some "overdue"
      else if diffDays ≤ 3 then some "urgent"
      else some "normal"

/-! Derived notions used to state the claims. -/

/-- A task whose sort key is free of NaN: its status is one of the three
known keys and its `createdAt` is not an unparseable string. On such tasks
the comparator is consistent, so the sorted order is fully determined. -/
def goodTodo (t : Todo) : Prop :=
  (statusPriority t.status).isSome ∧ t.createdAt ≠ CreatedAt.invalid

instance : DecidablePred goodTodo := fun t => by
  unfold goodTodo; infer_instance

/-- Status priority of a task (0 for todo, 1 for doing, 2 for done);
meaningful on tasks satisfying `goodTodo`. -/
def prioOf (t : Todo) : Int := (statusPriority t.status).getD 0

/-- Effective creation time of a task as used by the comparator: the
parsed timestamp, or the epoch 0 for a missing field. -/
def timeOf (t : Todo) : Int := (effTime t.createdAt).getD 0

/-- Intended display order: strictly smaller status priority, or equal
priority and no later effective creation time. -/
def specLE (a b : Todo) : Prop :=
  prioOf a < prioOf b ∨ (prioOf a = prioOf b ∧ timeOf a ≤ timeOf b)

/-- Strict version of `specLE`. -/
def specLT (a b : Todo) : Prop :=
  prioOf a < prioOf b ∨ (prioOf a = prioOf b ∧ timeOf a < timeOf b)

/-- Id projection of a stored collection. -/
def idsOf (store : List Todo) : List Int := store.map (fun t => t.id)

/-! Concrete tasks used in the concrete parts of the claims. -/

/-- Stored first, status done, earliest creation time. -/
def exTodo1 : Todo :=
  { id := 1, text := "a", status := "done", createdAt := CreatedAt.parsed 1,
    archived := false, dueDate := none }

/-- Stored second, status todo. -/
def exTodo2 : Todo :=
  { id := 2, text := "b", status := "todo", createdAt := CreatedAt.parsed 2,
    archived := false, dueDate := none }

/-- Stored third, status doing. -/
def exTodo3 : Todo :=
  { id := 3, text := "c", status := "doing", createdAt := CreatedAt.parsed 3,
    archived := false, dueDate := none }

/-- Stored fourth, status todo, latest creation time. -/
def exTodo4 : Todo :=
  { id := 4, text := "d", status := "todo", createdAt := CreatedAt.parsed 4,
    archived := false, dueDate := none }

/-- An archived task. -/
def archTask : Todo :=
  { id := 9, text := "e", status := "done", createdAt := CreatedAt.parsed 5,
    archived := true, dueDate := none }

/-- A task whose `createdAt` field is missing: the comparator coerces it
to the epoch. -/
def c1MissingTask : Todo :=
  { id := 1, text := "m", status := "todo", createdAt := CreatedAt.missing,
    archived := false, dueDate := none }

/-- A task whose `createdAt` parses to one day before the epoch, an
instant strictly earlier than the fallback for a missing field. -/
def c1PreEpochTask : Todo :=
  { id := 2, text := "p", status := "todo",
    createdAt := CreatedAt.parsed (-86400000),
    archived := false, dueDate := none }

/-- A minimal task with a given id. -/
def idTask (i : Int) : Todo :=
  { id := i, text := "t", status := "todo", createdAt := CreatedAt.parsed 0,
    archived := false, dueDate := none }

/-- A collection whose ids are 1, 3, 5. -/
def c2Store : List Todo := [idTask 1, idTask 3, idTask 5]

/-! Lemmas about the comparator. -/

lemma cmpNum_antisymm (a b : Todo) : cmpNum a b = -(cmpNum b a) := by
  unfold cmpNum cmpTodos
  cases ha : statusPriority a.status with
  | none => cases hb : statusPriority b.status <;> simp
  | some pa =>
    cases hb : statusPriority b.status with
    | none => simp
    | some pb =>
      by_cases h : pa - pb = 0
      · have h2 : pb - pa = 0 := by omega
        simp only [h, h2, ne_eq, not_true_eq_false, if_false,
          not_false_eq_true, reduceIte]
        cases hca : effTime a.createdAt <;> cases hcb : effTime b.createdAt <;>
          simp
      · have h2 : pb - pa ≠ 0 := by omega
        simp only [ne_eq, h, h2, not_false_eq_true, if_true, reduceIte]
        simp

lemma ltTodo_asymm {a b : Todo} (h : ltTodo a b = true) : ltTodo b a = false := by
  unfold ltTodo at *
  simp only [decide_eq_true_eq, decide_eq_false_iff_not, not_lt] at *
  rw [cmpNum_antisymm] at h
  omega

lemma statusPriority_eq_of_good {a : Todo} (h : goodTodo a) :
    statusPriority a.status = some (prioOf a) := by
  obtain ⟨h1, _⟩ := h
  cases hs : statusPriority a.status with
  | none => rw [hs] at h1; simp at h1
  | some v => simp [prioOf, hs]

lemma effTime_eq_of_good {a : Todo} (h : goodTodo a) :
    effTime a.createdAt = some (timeOf a) := by
  obtain ⟨_, h2⟩ := h
  cases hc : a.createdAt with
  | missing => simp [timeOf, effTime, hc]
  | invalid => exact absurd hc h2
  | parsed t => simp [timeOf, effTime, hc]

lemma cmpTodos_good {a b : Todo} (ha : goodTodo a) (hb : goodTodo b) :
    cmpTodos a b =
      some (if prioOf a - prioOf b ≠ 0 then prioOf a - prioOf b
            else timeOf a - timeOf b) := by
  unfold cmpTodos
  rw [statusPriority_eq_of_good ha, statusPriority_eq_of_good hb,
    effTime_eq_of_good ha, effTime_eq_of_good hb]
  by_cases h : prioOf a - prioOf b ≠ 0 <;> simp [h]

lemma ltTodo_iff_of_good {a b : Todo} (ha : goodTodo a) (hb : goodTodo b) :
    ltTodo a b = true ↔ specLT a b := by
  unfold ltTodo cmpNum specLT
  rw [cmpTodos_good ha hb]
  simp only [Option.getD_some, decide_eq_true_eq]
  by_cases h : prioOf a - prioOf b ≠ 0 <;> simp [h] <;> omega

lemma not_ltTodo_iff_of_good {a b : Todo} (ha : goodTodo a) (hb : goodTodo b) :
    ltTodo b a = false ↔ specLE a b := by
  have h := ltTodo_iff_of_good hb ha
  constructor
  · intro hf
    have : ¬ specLT b a := by
      intro hlt
      rw [← h] at hlt
      rw [hf] at hlt
      exact Bool.false_ne_true hlt
    unfold specLT at this
    unfold specLE
    omega
  · intro hle
    cases hbool : ltTodo b a with
    | false => rfl
    | true =>
      have hlt : specLT b a := h.mp hbool
      unfold specLT at hlt
      unfold specLE at hle
      omega

lemma specLE_trans {a b c : Todo} (h1 : specLE a b) (h2 : specLE b c) :
    specLE a c := by
  unfold specLE at *
  omega

lemma specLT_le_trans {a b c : Todo} (h1 : specLT a b) (h2 : specLE b c) :
    specLE a c := by
  unfold specLT at h1
  unfold specLE at *
  omega

/-! Lemmas about the stable insertion sort. -/

lemma insertJS_perm (lt : Todo → Todo → Bool) (x : Todo) (l : List Todo) :
    (insertJS lt x l).Perm (x :: l) := by
  induction l with
  | nil => exact List.Perm.refl _
  | cons y ys ih =>
    unfold insertJS
    cases h : lt x y with
    | true =>
      simp only [if_true]
      exact List.Perm.refl _
    | false =>
      simp only [Bool.false_eq_true, if_false]
      exact (ih.cons y).trans (List.Perm.swap x y ys)

lemma sortJS_aux_perm (lt : Todo → Todo → Bool) (l : List Todo) :
    ∀ acc : List Todo,
      (l.foldl (fun acc x => insertJS lt x acc) acc).Perm (acc ++ l) := by
  induction l with
  | nil => intro acc; simp
  | cons x xs ih =>
    intro acc
    have h1 := ih (insertJS lt x acc)
    have h2 : (insertJS lt x acc ++ xs).Perm (acc ++ x :: xs) := by
      have h3 := (insertJS_perm lt x acc).append_right xs
      exact h3.trans List.perm_middle.symm
    exact (List.foldl_cons _ _ ▸ h1).trans h2

lemma sortJS_perm (lt : Todo → Todo → Bool) (l : List Todo) :
    (sortJS lt l).Perm l := by
  have h := sortJS_aux_perm lt l []
  simpa [sortJS] using h

lemma getSortedTodos_perm (store : List Todo) :
    (getSortedTodos store).Perm (store.filter (fun t => !t.archived)) := by
  unfold getSortedTodos getTodos
  exact sortJS_perm _ _

lemma insertJS_pairwise (x : Todo) (l : List Todo) (hx : goodTodo x)
    (hl : ∀ t ∈ l, goodTodo t) (hp : l.Pairwise specLE) :
    (insertJS ltTodo x l).Pairwise specLE := by
  induction l with
  | nil => simp [insertJS]
  | cons y ys ih =>
    have hy : goodTodo y := hl y (List.mem_cons_self y ys)
    have hys : ∀ t ∈ ys, goodTodo t := fun t ht => hl t (List.mem_cons_of_mem y ht)
    obtain ⟨hyz, hpys⟩ := List.pairwise_cons.mp hp
    unfold insertJS
    cases h : ltTodo x y with
    | true =>
      simp only [if_true]
      refine List.pairwise_cons.mpr ⟨?_, hp⟩
      intro z hz
      have hxy : specLT x y := (ltTodo_iff_of_good hx hy).mp h
      rcases List.mem_cons.mp hz with hzy | hzys
      · subst hzy
        unfold specLT at hxy
        unfold specLE
        omega
      · exact specLT_le_trans hxy (hyz z hzys)
    | false =>
      simp only [Bool.false_eq_true, if_false]
      refine List.pairwise_cons.mpr ⟨?_, ih hys hpys⟩
      intro w hw
      have hw2 : w ∈ x :: ys := (insertJS_perm ltTodo x ys).mem_iff.mp hw
      rcases List.mem_cons.mp hw2 with hwx | hwys
      · subst hwx
        exact (not_ltTodo_iff_of_good hy hx).mp h
      · exact hyz w hwys

lemma sortJS_aux_pairwise (l : List Todo) :
    ∀ acc : List Todo, (∀ t ∈ l, goodTodo t) → (∀ t ∈ acc, goodTodo t) →
      acc.Pairwise specLE →
      (l.foldl (fun acc x => insertJS ltTodo x acc) acc).Pairwise specLE := by
  induction l with
  | nil => intro acc _ _ hp; simpa using hp
  | cons x xs ih =>
    intro acc hl hacc hp
    have hx : goodTodo x := hl x (List.mem_cons_self x xs)
    have hxs : ∀ t ∈ xs, goodTodo t := fun t ht => hl t (List.mem_cons_of_mem x ht)
    have hacc2 : ∀ t ∈ insertJS ltTodo x acc, goodTodo t := by
      intro t ht
      rcases List.mem_cons.mp ((insertJS_perm ltTodo x acc).mem_iff.mp ht) with h | h
      · subst h; exact hx
      · exact hacc t h
    exact ih (insertJS ltTodo x acc) hxs hacc2 (insertJS_pairwise x acc hx hacc hp)

lemma getSortedTodos_pairwise (store : List Todo)
    (h : ∀ t ∈ store, goodTodo t) :
    (getSortedTodos store).Pairwise specLE := by
  unfold getSortedTodos getTodos sortJS
  exact sortJS_aux_pairwise _ []
    (fun t ht => h t (List.mem_of_mem_filter ht)) (by simp) (by simp)

/-! Lemmas about `Math.max` over the id list. -/

lemma le_foldl_max (xs : List Int) (a : Int) : a ≤ xs.foldl max a := by
  induction xs generalizing a with
  | nil => simp
  | cons y ys ih =>
    simp only [List.foldl_cons]
    exact le_trans (le_max_left a y) (ih (max a y))

lemma mem_le_foldl_max (xs : List Int) (a : Int) :
    ∀ y ∈ xs, y ≤ xs.foldl max a := by
  induction xs generalizing a with
  | nil => simp
  | cons z zs ih =>
    intro y hy
    simp only [List.foldl_cons]
    rcases List.mem_cons.mp hy with h | h
    · subst h
      exact le_trans (le_max_right a y) (le_foldl_max zs (max a y))
    · exact ih (max a z) y h

lemma foldl_max_mem (xs : List Int) (a : Int) : xs.foldl max a ∈ a :: xs := by
  induction xs generalizing a with
  | nil => simp
  | cons y ys ih =>
    simp only [List.foldl_cons]
    have h := ih (max a y)
    rcases List.mem_cons.mp h with h1 | h1
    · rcases max_choice a y with h2 | h2
      · rw [h1, h2]; exact List.mem_cons_self _ _
      · rw [h1, h2]
        exact List.mem_cons_of_mem _ (List.mem_cons_self _ _)
    · exact List.mem_cons_of_mem _ (List.mem_cons_of_mem _ h1)

lemma maxIds_mem {todos : List Todo} (h : todos ≠ []) :
    maxIds todos ∈ idsOf todos := by
  unfold maxIds idsOf
  cases todos with
  | nil => exact absurd rfl h
  | cons t ts =>
    simp only [List.map_cons]
    exact foldl_max_mem (ts.map (fun t => t.id)) t.id

lemma maxIds_ge {todos : List Todo} :
    ∀ y ∈ idsOf todos, y ≤ maxIds todos := by
  unfold maxIds idsOf
  cases todos with
  | nil => simp
  | cons t ts =>
    intro y hy
    simp only [List.map_cons] at hy ⊢
    rcases List.mem_cons.mp hy with h | h
    · subst h
      exact le_foldl_max _ _
    · exact mem_le_foldl_max _ _ y h

/-! Lemmas about `updateFirst` and `find?`. -/

lemma updateFirst_of_find? (p : Todo → Bool) (l : List Todo) (t0 : Todo)
    (h : l.find? p = some t0) :
    ∃ j, ∃ hj : j < l.length,
      l.get ⟨j, hj⟩ = t0 ∧ p t0 = true ∧
      ∀ f : Todo → Todo,
        updateFirst p f l = l.take j ++ f t0 :: l.drop (j + 1) := by
  induction l with
  | nil => simp at h
  | cons x xs ih =>
    by_cases hp : p x
    · rw [List.find?_cons_of_pos xs hp] at h
      have hx : x = t0 := by injection h
      subst hx
      refine ⟨0, by simp, rfl, hp, ?_⟩
      intro f
      simp [updateFirst, hp]
    · rw [List.find?_cons_of_neg xs hp] at h
      obtain ⟨j, hj, hget, hpt, hupd⟩ := ih h
      refine ⟨j + 1, by simpa using Nat.succ_lt_succ hj, ?_, hpt, ?_⟩
      · simpa using hget
      · intro f
        simp [updateFirst, hp, hupd f]

lemma find?_of_exists {id : Int} {store : List Todo}
    (h : ∃ t ∈ store, t.id = id) :
    ∃ t0, store.find? (fun t => t.id = id) = some t0 := by
  have h2 : (store.find? (fun t => t.id = id)).isSome = true := by
    rw [List.find?_isSome]
    obtain ⟨t, ht, hid⟩ := h
    exact ⟨t, ht, by simp [hid]⟩
  cases hf : store.find? (fun t => t.id = id) with
  | none => rw [hf] at h2; simp at h2
  | some t0 => exact ⟨t0, rfl⟩

lemma idsOf_updateFirst (p : Todo → Bool) (f : Todo → Todo)
    (hf : ∀ t, (f t).id = t.id) (l : List Todo) :
    idsOf (updateFirst p f l) = idsOf l := by
  induction l with
  | nil => rfl
  | cons x xs ih =>
    unfold updateFirst idsOf
    by_cases hp : p x
    · simp [hp, hf x]
    · simp only [hp, Bool.false_eq_true, if_false, List.map_cons]
      unfold idsOf at ih
      rw [ih]

lemma length_filter_lt_of_mem {p : Todo → Bool} {l : List Todo} {t : Todo}
    (ht : t ∈ l) (hpt : p t = false) :
    (l.filter p).length < l.length := by
  induction l with
  | nil => simp at ht
  | cons x xs ih =>
    rcases List.mem_cons.mp ht with h | h
    · subst h
      simp only [List.filter_cons, hpt, Bool.false_eq_true, if_false]
      exact Nat.lt_succ_of_le (List.length_filter_le p xs)
    · cases hx : p x with
      | true =>
        simp only [List.filter_cons, hx, if_true, List.length_cons]
        exact Nat.succ_lt_succ (ih h)
      | false =>
        simp only [List.filter_cons, hx, Bool.false_eq_true, if_false,
          List.length_cons]
        exact Nat.lt_succ_of_lt (ih h)

lemma idsOf_snd_updateTodoStatus (id : Int) (newStatus : String)
    (store : List Todo) :
    idsOf (updateTodoStatus id newStatus store).2 = idsOf store := by
  cases hfind : store.find? (fun t => t.id = id) with
  | none => simp [updateTodoStatus, getTodos, hfind]
  | some t0 =>
    simp only [updateTodoStatus, getTodos, hfind]
    exact idsOf_updateFirst _ (fun t => { t with status := newStatus })
      (fun t => rfl) store

lemma idsOf_snd_updateTodoDueDate (id : Int) (dueDate : Option String)
    (store : List Todo) :
    idsOf (updateTodoDueDate id dueDate store).2 = idsOf store := by
  cases hfind : store.find? (fun t => t.id = id) with
  | none => simp [updateTodoDueDate, getTodos, hfind]
  | some t0 =>
    simp only [updateTodoDueDate, getTodos, hfind]
    exact idsOf_updateFirst _ (fun t => { t with dueDate := dueDate })
      (fun t => rfl) store

lemma idsOf_snd_updateTodoText (id : Int) (newText : String)
    (store : List Todo) :
    idsOf (updateTodoText id newText store).2 = idsOf store := by
  cases hfind : store.find? (fun t => t.id = id) with
  | none => simp [updateTodoText, getTodos, hfind]
  | some t0 =>
    by_cases htrim : jsTrim newText = ""
    · simp [updateTodoText, getTodos, hfind, htrim]
    · simp only [updateTodoText, getTodos, hfind, htrim, if_false, reduceIte]
      exact idsOf_updateFirst _ (fun t => { t with text := jsTrim newText })
        (fun t => rfl) store

lemma idsOf_snd_archiveTodo (id : Int) (store : List Todo) :
    idsOf (archiveTodo id store).2 = idsOf store := by
  cases hfind : store.find? (fun t => t.id = id) with
  | none => simp [archiveTodo, getTodos, hfind]
  | some t0 =>
    simp only [archiveTodo, getTodos, hfind]
    exact idsOf_updateFirst _ (fun t => { t with archived := true })
      (fun t => rfl) store

lemma idsOf_snd_unarchiveTodo (id : Int) (store : List Todo) :
    idsOf (unarchiveTodo id store).2 = idsOf store := by
  cases hfind : store.find? (fun t => t.id = id) with
  | none => simp [unarchiveTodo, getTodos, hfind]
  | some t0 =>
    simp only [unarchiveTodo, getTodos, hfind]
    exact idsOf_updateFirst _ (fun t => { t with archived := false })
      (fun t => rfl) store

/-- C2: `addTodo` assigns id 1 on an empty collection and otherwise the
maximum existing id plus 1; after ids {1, 3, 5} the fresh id is 6. -/
theorem c2_add_id_assignment :
    (∀ (text status : String) (dueDate : Option String) (now : Int)
        (store : List Todo),
      (store = [] → (addTodo text status dueDate now store).1.id = 1) ∧
      (store ≠ [] → ∃ m : Int, m ∈ idsOf store ∧
        (∀ y ∈ idsOf store, y ≤ m) ∧
        (addTodo text status dueDate now store).1.id = m + 1)) ∧
    (addTodo "x" "todo" none 0 c2Store).1.id = 6 := by
  constructor
  · intro text status dueDate now store
    constructor
    · intro h
      subst h
      rfl
    · intro h
      refine ⟨maxIds store, maxIds_mem h, maxIds_ge, ?_⟩
      have hlen : store.length > 0 := List.length_pos.mpr h
      simp [addTodo, getTodos, hlen]
  · decide

/-- Witness for C2: the general statement applied to the collection with
ids {1, 3, 5} and to the empty collection. -/
theorem c2_witness :
    (∃ m : Int, m ∈ idsOf c2Store ∧ (∀ y ∈ idsOf c2Store, y ≤ m) ∧
      (addTodo "x" "todo" none 0 c2Store).1.id = m + 1) ∧
    (addTodo "y" "todo" none 0 []).1.id = 1 :=
  ⟨(c2_add_id_assignment.1 "x" "todo" none 0 c2Store).2 (by decide),
   (c2_add_id_assignment.1 "y" "todo" none 0 []).1 rfl⟩

/-- C3: adding a task to an empty collection and reading back yields
exactly one task: the returned one, with trimmed text, default status
todo, and archived false. -/
theorem c3_add_roundtrip :
    ∀ (text : String) (now : Int),
      getTodos (addTodo text "todo" none now []).2 =
        [(addTodo text "todo" none now []).1] ∧
      (addTodo text "todo" none now []).1.text = jsTrim text ∧
      (addTodo text "todo" none now []).1.status = "todo" ∧
      (addTodo text "todo" none now []).1.archived = false := by
  intro text now
  exact ⟨rfl, rfl, rfl, rfl⟩

/-- C8: the urgency classification on calendar-day numbers: one day before
today is overdue, today through three days ahead is urgent, four days
ahead is normal. -/
theorem c8_urgency_classification :
    ∀ D : Int,
      getDueDateUrgency D (some (D - 1)) = some "overdue" ∧
      (∀ k : Int, 0 ≤ k → k ≤ 3 →
        getDueDateUrgency D (some (D + k)) = some "urgent") ∧
      getDueDateUrgency D (some (D + 4)) = some "normal" := by
  intro D
  refine ⟨?_, ?_, ?_⟩
  · simp only [getDueDateUrgency]
    rw [if_pos (by omega)]
  · intro k h0 h3
    simp only [getDueDateUrgency]
    rw [if_neg (by omega), if_pos (by omega)]
  · simp only [getDueDateUrgency]
    rw [if_neg (by omega), if_neg (by omega)]

/-- Witness for C8 at today = 0: due date -1 is overdue, 2 is urgent,
4 is normal. -/
theorem c8_witness :
    getDueDateUrgency 0 (some (0 - 1)) = some "overdue" ∧
    getDueDateUrgency 0 (some (0 + 2)) = some "urgent" ∧
    getDueDateUrgency 0 (some (0 + 4)) = some "normal" :=
  ⟨(c8_urgency_classification 0).1,
   (c8_urgency_classification 0).2.1 2 (by decide) (by decide),
   (c8_urgency_classification 0).2.2⟩

/-- C5: on an id absent from the collection, every lookup-by-id mutation
returns its explicit not-found result (none for the updates, false for
delete) and leaves the stored collection unchanged. -/
theorem c5_missing_id_soft_fail :
    ∀ (store : List Todo) (id : Int) (newStatus newText : String)
        (dueDate : Option String),
      (∀ t ∈ store, t.id ≠ id) →
      updateTodoStatus id newStatus store = (none, store) ∧
      updateTodoText id newText store = (none, store) ∧
      updateTodoDueDate id dueDate store = (none, store) ∧
      archiveTodo id store = (none, store) ∧
      unarchiveTodo id store = (none, store) ∧
      deleteTodo id store = (false, store) := by
  intro store id newStatus newText dueDate h
  have hfind : store.find? (fun t => t.id = id) = none := by
    rw [List.find?_eq_none]
    intro t ht
    simp [h t ht]
  have hfilter : store.filter (fun t => t.id ≠ id) = store := by
    rw [List.filter_eq_self]
    intro t ht
    simp [h t ht]
  refine ⟨?_, ?_, ?_, ?_, ?_, ?_⟩
  · simp [updateTodoStatus, getTodos, hfind]
  · simp [updateTodoText, getTodos, hfind]
  · simp [updateTodoDueDate, getTodos, hfind]
  · simp [archiveTodo, getTodos, hfind]
  · simp [unarchiveTodo, getTodos, hfind]
  · simp only [deleteTodo, getTodos, hfilter]
    simp

/-- Witness for C5: id 42 is absent from the singleton collection. -/
theorem c5_witness :
    updateTodoStatus 42 "done" [exTodo2] = (none, [exTodo2]) ∧
    updateTodoText 42 "x" [exTodo2] = (none, [exTodo2]) ∧
    updateTodoDueDate 42 none [exTodo2] = (none, [exTodo2]) ∧
    archiveTodo 42 [exTodo2] = (none, [exTodo2]) ∧
    unarchiveTodo 42 [exTodo2] = (none, [exTodo2]) ∧
    deleteTodo 42 [exTodo2] = (false, [exTodo2]) :=
  c5_missing_id_soft_fail [exTodo2] 42 "done" "x" none (by decide)

/-- C7: delete on a present id returns true and removes exactly the tasks
bearing that id; on an absent id it returns false and changes nothing. -/
theorem c7_delete_exact :
    ∀ (store : List Todo) (id : Int),
      ((∃ t ∈ store, t.id = id) →
        deleteTodo id store = (true, store.filter (fun t => t.id ≠ id))) ∧
      ((∀ t ∈ store, t.id ≠ id) → deleteTodo id store = (false, store)) := by
  intro store id
  constructor
  · intro hex
    obtain ⟨t, ht, hid⟩ := hex
    have hlt : (store.filter (fun t => t.id ≠ id)).length < store.length :=
      length_filter_lt_of_mem ht (by simp [hid])
    simp only [deleteTodo, getTodos]
    rw [if_neg (by omega)]
  · intro h
    have hfilter : store.filter (fun t => t.id ≠ id) = store := by
      rw [List.filter_eq_self]
      intro t ht
      simp [h t ht]
    simp [deleteTodo, getTodos, hfilter]
    exact h

/-- Witness for C7: deleting id 2 from a two-task collection removes the
matching task; deleting id 42 changes nothing. -/
theorem c7_witness :
    deleteTodo 2 [exTodo2, exTodo1] =
      (true, [exTodo2, exTodo1].filter (fun t => t.id ≠ 2)) ∧
    deleteTodo 42 [exTodo2, exTodo1] = (false, [exTodo2, exTodo1]) :=
  ⟨(c7_delete_exact [exTodo2, exTodo1] 2).1 ⟨exTodo2, by decide, by decide⟩,
   (c7_delete_exact [exTodo2, exTodo1] 42).2 (by decide)⟩

/-- C6: a text update whose new text trims to empty returns none and
leaves the collection unchanged; with a non-empty trimmed text and a
present id, the stored task's text becomes the trimmed string. -/
theorem c6_setText_trim :
    ∀ (store : List Todo) (id : Int) (newText : String),
      (jsTrim newText = "" →
        updateTodoText id newText store = (none, store)) ∧
      (jsTrim newText ≠ "" → (∃ t ∈ store, t.id = id) →
        ∃ u : Todo, (updateTodoText id newText store).1 = some u ∧
          u.text = jsTrim newText ∧
          u ∈ (updateTodoText id newText store).2) := by
  intro store id newText
  constructor
  · intro htrim
    cases hfind : store.find? (fun t => t.id = id) with
    | none => simp [updateTodoText, getTodos, hfind]
    | some t0 => simp [updateTodoText, getTodos, hfind, htrim]
  · intro htrim hex
    obtain ⟨t0, hfind⟩ := find?_of_exists hex
    obtain ⟨j, hj, hget, hpt, hupd⟩ :=
      updateFirst_of_find? (fun t => t.id = id) store t0 hfind
    refine ⟨{ t0 with text := jsTrim newText }, ?_, rfl, ?_⟩
    · simp [updateTodoText, getTodos, hfind, htrim]
    · simp only [updateTodoText, getTodos, hfind, htrim, if_false, reduceIte]
      rw [hupd (fun t => { t with text := jsTrim newText })]
      exact List.mem_append_right _ (List.mem_cons_self _ _)

/-- Witness for C6: blanking text is rejected on a present id, and a
trimmed non-empty text is stored. -/
theorem c6_witness :
    updateTodoText 2 "   " [exTodo2] = (none, [exTodo2]) ∧
    ∃ u : Todo, (updateTodoText 2 " hi " [exTodo2]).1 = some u ∧
      u.text = jsTrim " hi " ∧
      u ∈ (updateTodoText 2 " hi " [exTodo2]).2 :=
  ⟨(c6_setText_trim [exTodo2] 2 "   ").1 (by decide),
   (c6_setText_trim [exTodo2] 2 " hi ").2 (by decide)
     ⟨exTodo2, by decide, by decide⟩⟩

/-- C4: an archived task is absent from the sorted listing, contributes to
no field of the status summary (the summary over the collection equals the
summary over its non-archived part), and appears in the archived
listing. -/
theorem c4_archive_exclusion :
    ∀ (store : List Todo) (t : Todo), t ∈ store → t.archived = true →
      t ∉ getSortedTodos store ∧
      t ∈ getArchivedTodos store ∧
      getStatusSummary store =
        getStatusSummary (store.filter (fun x => !x.archived)) := by
  intro store t ht harch
  refine ⟨?_, ?_, ?_⟩
  · intro hmem
    have h2 : t ∈ store.filter (fun x => !x.archived) :=
      (getSortedTodos_perm store).mem_iff.mp hmem
    have h3 := List.of_mem_filter h2
    rw [harch] at h3
    simp at h3
  · unfold getArchivedTodos getTodos
    exact List.mem_filter.mpr ⟨ht, by simp [harch]⟩
  · unfold getStatusSummary getSortedTodos getTodos
    rw [List.filter_filter]
    simp

/-- Witness for C4 on a two-task collection holding one archived task. -/
theorem c4_witness :
    archTask ∉ getSortedTodos [exTodo2, archTask] ∧
    archTask ∈ getArchivedTodos [exTodo2, archTask] ∧
    getStatusSummary [exTodo2, archTask] =
      getStatusSummary ([exTodo2, archTask].filter (fun x => !x.archived)) :=
  c4_archive_exclusion [exTodo2, archTask] archTask (by decide) (by decide)

/-- C9: starting from pairwise-distinct ids, every store operation leaves
the ids pairwise distinct, and the id freshly assigned by `addTodo` does
not collide with any existing id. -/
theorem c9_id_uniqueness :
    ∀ (store : List Todo) (text status newStatus newText : String)
        (dueDate dueDate2 : Option String) (now id : Int),
      (idsOf store).Nodup →
      (addTodo text status dueDate now store).1.id ∉ idsOf store ∧
      (idsOf (addTodo text status dueDate now store).2).Nodup ∧
      (idsOf (deleteTodo id store).2).Nodup ∧
      (idsOf (updateTodoStatus id newStatus store).2).Nodup ∧
      (idsOf (updateTodoText id newText store).2).Nodup ∧
      (idsOf (updateTodoDueDate id dueDate2 store).2).Nodup ∧
      (idsOf (archiveTodo id store).2).Nodup ∧
      (idsOf (unarchiveTodo id store).2).Nodup := by
  intro store text status newStatus newText dueDate dueDate2 now id h
  have hnotin : (addTodo text status dueDate now store).1.id ∉ idsOf store := by
    by_cases hs : store = []
    · subst hs
      simp [idsOf]
    · have hlen : store.length > 0 := List.length_pos.mpr hs
      intro hmem
      have hle := maxIds_ge _ hmem
      have hid : (addTodo text status dueDate now store).1.id =
          maxIds store + 1 := by
        simp [addTodo, getTodos, hlen]
      omega
  refine ⟨hnotin, ?_, ?_, ?_, ?_, ?_, ?_, ?_⟩
  · have hids : idsOf (addTodo text status dueDate now store).2 =
        idsOf store ++ [(addTodo text status dueDate now store).1.id] := by
      simp [addTodo, getTodos, idsOf]
    rw [hids]
    rw [(List.perm_append_singleton _ _).nodup_iff]
    exact List.nodup_cons.mpr ⟨hnotin, h⟩
  · by_cases hc : (store.filter (fun t => t.id ≠ id)).length = store.length
    · have hsnd : (deleteTodo id store).2 = store := by
        simp only [deleteTodo, getTodos]
        rw [if_pos hc]
      rw [hsnd]
      exact h
    · have hsnd : (deleteTodo id store).2 = store.filter (fun t => t.id ≠ id) := by
        simp only [deleteTodo, getTodos]
        rw [if_neg hc]
      rw [hsnd]
      exact List.Nodup.sublist ((List.filter_sublist store).map _) h
  · rw [idsOf_snd_updateTodoStatus]
    exact h
  · rw [idsOf_snd_updateTodoText]
    exact h
  · rw [idsOf_snd_updateTodoDueDate]
    exact h
  · rw [idsOf_snd_archiveTodo]
    exact h
  · rw [idsOf_snd_unarchiveTodo]
    exact h

/-- Witness for C9 on the collection with ids {1, 3, 5}. -/
theorem c9_witness :
    (addTodo "x" "todo" none 0 c2Store).1.id ∉ idsOf c2Store ∧
    (idsOf (addTodo "x" "todo" none 0 c2Store).2).Nodup ∧
    (idsOf (deleteTodo 3 c2Store).2).Nodup ∧
    (idsOf (updateTodoStatus 3 "done" c2Store).2).Nodup ∧
    (idsOf (updateTodoText 3 "y" c2Store).2).Nodup ∧
    (idsOf (updateTodoDueDate 3 none c2Store).2).Nodup ∧
    (idsOf (archiveTodo 3 c2Store).2).Nodup ∧
    (idsOf (unarchiveTodo 3 c2Store).2).Nodup :=
  c9_id_uniqueness c2Store "x" "todo" "done" "y" none none 0 3 (by decide)

/-- C1 counterexample: the claim says a task with missing `createdAt`
sorts as the earliest possible instant, hence never after a task of equal
status with any parseable `createdAt`. In the code the missing field falls
back to `new Date(0)`, the epoch, so a task whose `createdAt` parses to a
pre-1970 instant sorts strictly before it: with storage order
`[c1MissingTask, c1PreEpochTask]` (equal statuses), `getSortedTodos`
returns the pre-epoch task first, while the claim requires the
missing-`createdAt` task first. -/
theorem c1_counterexample :
    c1MissingTask.createdAt = CreatedAt.missing ∧
    c1MissingTask.status = c1PreEpochTask.status ∧
    getSortedTodos [c1MissingTask, c1PreEpochTask] =
      [c1PreEpochTask, c1MissingTask] ∧
    c1PreEpochTask ≠ c1MissingTask := by
  decide

/-- C1 (amended): for every stored collection whose statuses are among
the three known keys and whose `createdAt` fields are missing or
parseable, `getSortedTodos` returns exactly the non-archived tasks,
ordered by status priority (todo before doing before done) and, within
equal priority, by ascending effective creation time, where a missing
`createdAt` is treated as the epoch (instant 0), not as the earliest
possible instant; on statuses `[done, todo, doing, todo]` with distinct
increasing `createdAt` the result is todo, todo, doing, done with the two
todo tasks in creation order. -/
theorem c1_listSorted_order :
    (∀ store : List Todo, (∀ t ∈ store, goodTodo t) →
      (getSortedTodos store).Perm (store.filter (fun t => !t.archived)) ∧
      (getSortedTodos store).Pairwise specLE) ∧
    getSortedTodos [exTodo1, exTodo2, exTodo3, exTodo4] =
      [exTodo2, exTodo4, exTodo3, exTodo1] := by
  constructor
  · intro store h
    exact ⟨getSortedTodos_perm store, getSortedTodos_pairwise store h⟩
  · decide

/-- Witness for C1 on the four-task example collection. -/
theorem c1_witness :
    (getSortedTodos [exTodo1, exTodo2, exTodo3, exTodo4]).Perm
      ([exTodo1, exTodo2, exTodo3, exTodo4].filter (fun t => !t.archived)) ∧
    (getSortedTodos [exTodo1, exTodo2, exTodo3, exTodo4]).Pairwise specLE :=
  c1_listSorted_order.1 [exTodo1, exTodo2, exTodo3, exTodo4] (by decide)

/-- C10: each single-field update on a present id rewrites exactly the
first matching task, replacing only the named field (the structure update
leaves every other field equal), and leaves every other task, the length
and the storage order unchanged. -/
theorem c10_single_field_frame :
    ∀ (store : List Todo) (id : Int) (newStatus newText : String)
        (dueDate : Option String),
      (∃ t ∈ store, t.id = id) → jsTrim newText ≠ "" →
      ∃ j, ∃ hj : j < store.length,
        (store.get ⟨j, hj⟩).id = id ∧
        (updateTodoStatus id newStatus store).2 =
          store.take j ++ { store.get ⟨j, hj⟩ with status := newStatus } ::
            store.drop (j + 1) ∧
        (updateTodoText id newText store).2 =
          store.take j ++ { store.get ⟨j, hj⟩ with text := jsTrim newText } ::
            store.drop (j + 1) ∧
        (updateTodoDueDate id dueDate store).2 =
          store.take j ++ { store.get ⟨j, hj⟩ with dueDate := dueDate } ::
            store.drop (j + 1) ∧
        (archiveTodo id store).2 =
          store.take j ++ { store.get ⟨j, hj⟩ with archived := true } ::
            store.drop (j + 1) ∧
        (unarchiveTodo id store).2 =
          store.take j ++ { store.get ⟨j, hj⟩ with archived := false } ::
            store.drop (j + 1) := by
  intro store id newStatus newText dueDate hex htrim
  obtain ⟨t0, hfind⟩ := find?_of_exists hex
  obtain ⟨j, hj, hget, hpt, hupd⟩ :=
    updateFirst_of_find? (fun t => t.id = id) store t0 hfind
  refine ⟨j, hj, ?_, ?_, ?_, ?_, ?_, ?_⟩
  · rw [hget]
    simpa using hpt
  · simp only [updateTodoStatus, getTodos, hfind]
    rw [hupd (fun t => { t with status := newStatus }), hget]
  · simp only [updateTodoText, getTodos, hfind, htrim, if_false, reduceIte]
    rw [hupd (fun t => { t with text := jsTrim newText }), hget]
  · simp only [updateTodoDueDate, getTodos, hfind]
    rw [hupd (fun t => { t with dueDate := dueDate }), hget]
  · simp only [archiveTodo, getTodos, hfind]
    rw [hupd (fun t => { t with archived := true }), hget]
  · simp only [unarchiveTodo, getTodos, hfind]
    rw [hupd (fun t => { t with archived := false }), hget]

/-- Witness for C10: the updates applied to a two-task collection at the
id of its second task. -/
theorem c10_witness :
    ∃ j, ∃ hj : j < ([exTodo1, exTodo2] : List Todo).length,
      (([exTodo1, exTodo2] : List Todo).get ⟨j, hj⟩).id = 2 ∧
      (updateTodoStatus 2 "done" [exTodo1, exTodo2]).2 =
        ([exTodo1, exTodo2] : List Todo).take j ++
          { ([exTodo1, exTodo2] : List Todo).get ⟨j, hj⟩ with
              status := "done" } ::
            ([exTodo1, exTodo2] : List Todo).drop (j + 1) ∧
      (updateTodoText 2 " hi " [exTodo1, exTodo2]).2 =
        ([exTodo1, exTodo2] : List Todo).take j ++
          { ([exTodo1, exTodo2] : List Todo).get ⟨j, hj⟩ with
              text := jsTrim " hi " } ::
            ([exTodo1, exTodo2] : List Todo).drop (j + 1) ∧
      (updateTodoDueDate 2 (some "2025-01-01") [exTodo1, exTodo2]).2 =
        ([exTodo1, exTodo2] : List Todo).take j ++
          { ([exTodo1, exTodo2] : List Todo).get ⟨j, hj⟩ with
              dueDate := some "2025-01-01" } ::
            ([exTodo1, exTodo2] : List Todo).drop (j + 1) ∧
      (archiveTodo 2 [exTodo1, exTodo2]).2 =
        ([exTodo1, exTodo2] : List Todo).take j ++
          { ([exTodo1, exTodo2] : List Todo).get ⟨j, hj⟩ with
              archived := true } ::
            ([exTodo1, exTodo2] : List Todo).drop (j + 1) ∧
      (unarchiveTodo 2 [exTodo1, exTodo2]).2 =
        ([exTodo1, exTodo2] : List Todo).take j ++
          { ([exTodo1, exTodo2] : List Todo).get ⟨j, hj⟩ with
              archived := false } ::
            ([exTodo1, exTodo2] : List Todo).drop (j + 1) :=
  c10_single_field_frame [exTodo1, exTodo2] 2 "done" " hi " (some "2025-01-01")
    ⟨exTodo2, by decide, by decide⟩ (by decide)
